import Mathlib

/-
Shallow embedding of py3status-meetings.py (a py3status module showing the
time until the next Google Calendar meeting).

Modelling conventions:
  * Python floats are modelled as exact rationals (the quantities involved,
    seconds divided by 60 or 3600, are far below the magnitudes at which
    IEEE-754 rounding could flip any comparison made by the program).
  * Timestamps (timezone-aware datetimes) are modelled by the instant they
    denote, an integer count of seconds.  datetime.astimezone changes only the
    display zone, never the instant, and comparison of aware datetimes
    compares instants, so the zone tag of a datetime is kept separately where
    the program stores it (Event.tz).
  * datetime.datetime.now(tz) denotes the current instant regardless of tz;
    the embedding passes that instant as an explicit argument "now".
  * Python time spans (datetime.timedelta) are modelled by their exact length
    in seconds, a rational.
  * Fallible paths (KeyError on a missing dict key, a malformed value) are
    modelled with Option: none means the Python code raises.
  * Google API records are dicts; where the program performs dict key tests
    the embedding keeps an association list of string keys.
-/

/-- Python's float modulo for a positive modulus: x % y = x - y * floor (x/y),
always in [0, y). -/
def pymod (x y : ℚ) : ℚ := x - y * ⌊x / y⌋

/-- Truncation toward zero, the conversion Python's percent-d format applies
to a float argument. -/
def truncd (x : ℚ) : ℤ := if x < 0 then -⌊-x⌋ else ⌊x⌋

/-- class Duration: seconds : int. -/
structure Duration where
  seconds : ℤ
deriving DecidableEq

/-- Duration.__init__ on the int path: self.seconds = form. -/
def Duration.ofInt (form : ℤ) : Duration := ⟨form⟩

/-- Duration.__init__ on the timedelta path: self.seconds = form.seconds.
A Python timedelta is normalized to (days, seconds, microseconds) with
0 <= seconds < 86400 and 0 <= microseconds < 10^6, so form.seconds is
floor (total length in seconds) modulo 86400 — NOT the total. -/
def Duration.ofTimedelta (form : ℚ) : Duration := ⟨(⌊form⌋) % 86400⟩

/-- Duration.minutes: (self.seconds / 60) % 60, float arithmetic. -/
def Duration.minutes (d : Duration) : ℚ := pymod ((d.seconds : ℚ) / 60) 60

/-- Duration.minutes_full: self.seconds / 60, float division. -/
def Duration.minutes_full (d : Duration) : ℚ := (d.seconds : ℚ) / 60

/-- Duration.hours_full: self.minutes_full() / 60. -/
def Duration.hours_full (d : Duration) : ℚ := d.minutes_full / 60

/-- Duration.__str__:
hours = '' if hours_full() < 1 else '%dh ' % hours_full();
minutes = '%dm' % minutes(); result is the concatenation. -/
def Duration.str (d : Duration) : String :=
  (if d.hours_full < 1 then "" else toString (truncd d.hours_full) ++ "h ") ++
    (toString (truncd d.minutes) ++ "m")

/-- get_duration_color: red below 20 minutes, yellow below 120, else None. -/
def get_duration_color (time_until : Duration) : Option String :=
  if time_until.minutes_full < 20 then some "#FF0000"
  else if time_until.minutes_full < 120 then some "#FFFF00"
  else none

/-- dataclass Event.  The Python field named end is called end_ here
(end is a Lean keyword).  start and end_ are instants; tz is the zone name
the program attached via astimezone. -/
structure Event where
  summary : String
  tz : String
  start : ℤ
  end_ : ℤ
  color : String
deriving DecidableEq

/-- Event.time_until: Duration(self.start - now) where
now = datetime.datetime.now(self.tz), here passed in as the instant. -/
def Event.time_until (e : Event) (now : ℤ) : Duration :=
  Duration.ofTimedelta ((e.start - now : ℤ) : ℚ)

/-- A value stored in a Google API record: either a plain string (zone names,
date strings) or a datetime string, modelled by the instant it denotes. -/
inductive GVal where
  | str : String → GVal
  | time : ℤ → GVal
deriving DecidableEq

/-- A Google API sub-record (such as event['start']) is a dict; the program
tests and reads its keys, so it is kept as an association list. -/
abbrev GDict := List (String × GVal)

/-- Python's `key in dict` test. -/
def hasKey (d : GDict) (k : String) : Bool := d.any (fun p => p.1 == k)

/-- Python's dict[key] read; none models the KeyError the program would
raise on a missing key. -/
def getKey (d : GDict) (k : String) : Option GVal :=
  (d.find? (fun p => p.1 == k)).map Prod.snd

/-- One raw event item as returned by the provider's events().list:
a summary plus the start and end sub-records. -/
structure RawEvent where
  summary : String
  start : GDict
  end_ : GDict
deriving DecidableEq

/-- Line 112: tz = timezone(event['start']['timeZone']) if 'timezone' in
event['start'] else timezone('utc').  The membership test uses the lowercase
key 'timezone' while the read uses the camel-case key 'timeZone'; none models
the KeyError/TypeError raised when the read fails after the test succeeds. -/
def resolveTz (start : GDict) : Option String :=
  if hasKey start "timezone" then
    match getKey start "timeZone" with
    | some (GVal.str z) => some z
    | _ => none
  else some "utc"

/-- datetime.datetime.fromisoformat(d['dateTime']).astimezone(tz): the
resulting instant; astimezone leaves the instant unchanged. -/
def dateTimeOf (d : GDict) : Option ℤ :=
  match getKey d "dateTime" with
  | some (GVal.time t) => some t
  | _ => none

/-- The per-event body of the loop in GoogleCalendar._get_events
(lines 107-126).  some none: the event is skipped (all-day, or start not
in the future); some (some e): the event is kept as e; none: the Python
code raises. -/
def parseOne (now : ℤ) (color : String) (r : RawEvent) : Option (Option Event) :=
  if hasKey r.start "date" then
    some none
  else
    match resolveTz r.start with
    | none => none
    | some tz =>
      match dateTimeOf r.start with
      | none => none
      | some s =>
        if s < now then
          some none
        else
          match dateTimeOf r.end_ with
          | none => none
          | some e => some (some ⟨r.summary, tz, s, e, color⟩)

/-- GoogleCalendar._get_events: the parsed_events list accumulated over the
provider's raw items (network fetch abstracted away; now passed in). -/
def get_events (now : ℤ) (color : String) : List RawEvent → Option (List Event)
  | [] => some []
  | r :: rs =>
    match parseOne now color r with
    | none => none
    | some h =>
      match get_events now color rs with
      | none => none
      | some t => some (match h with | none => t | some e => e :: t)

/-- One calendar from the provider's calendarList, with the raw event items
its events().list fetch would return. -/
structure Cal where
  summary : String
  backgroundColor : String
  events : List RawEvent
deriving DecidableEq

/-- The loop of GoogleCalendar.get_next_events (lines 87-89): all_events
extended with each applicable calendar's events, tagged with the calendar's
backgroundColor. -/
def gatherEvents (now : ℤ) : List Cal → Option (List Event)
  | [] => some []
  | c :: cs =>
    match get_events now c.backgroundColor c.events with
    | none => none
    | some es =>
      match gatherEvents now cs with
      | none => none
      | some rest => some (es ++ rest)

/-- The sort key relation of all_events.sort(key=attrgetter('start')). -/
def startLe (a b : Event) : Prop := a.start ≤ b.start

instance : DecidableRel startLe := fun a b => Int.decLe a.start b.start

instance : IsTotal Event startLe := ⟨fun a b => Int.le_total a.start b.start⟩

instance : IsTrans Event startLe := ⟨fun _ _ _ hab hbc => le_trans hab hbc⟩

/-- GoogleCalendar.get_next_events (lines 82-93).  Python's list.sort is a
stable ascending sort by the key; any stable sort by a total preorder yields
the same list, so it is modelled by insertion sort on startLe. -/
def get_next_events (now : ℤ) (calendar_names : List String) (cals : List Cal) :
    Option (List Event) :=
  match gatherEvents now (cals.filter (fun c => calendar_names.contains c.summary)) with
  | none => none
  | some all_events => some (List.insertionSort startLe all_events)

/-- The output record of Py3status.meetings: cached_until = py3.time_in(60)
(the instant 60 seconds from now), and either full_text or a composite of
(full_text, color) segments. -/
structure OutRec where
  cached_until : ℤ
  full_text : Option String
  composite : Option (List (String × Option String))
deriving DecidableEq

/-- Py3status.meetings (lines 144-165). -/
def meetings (now : ℤ) (calendar_names : List String) (cals : List Cal) :
    Option OutRec :=
  match get_next_events now calendar_names cals with
  | none => none
  | some all_events =>
    match all_events with
    | [] => some ⟨now + 60, some "No upcoming events", none⟩
    | next_event :: _ =>
      let time_until := next_event.time_until now
      some ⟨now + 60, none,
        some [("In " ++ time_until.str ++ " ", get_duration_color time_until),
              (next_event.summary, some next_event.color)]⟩

/-- A provider record whose start carries the camel-case "timeZone" field
(as Google's API sends it) alongside "dateTime". -/
def rawTzWarsaw : RawEvent :=
  ⟨"standup", [("dateTime", GVal.time 2000), ("timeZone", GVal.str "Europe/Warsaw")],
    [("dateTime", GVal.time 3000)]⟩

/-- A timed event starting exactly at instant 1000. -/
def rawAtNow : RawEvent := ⟨"m", [("dateTime", GVal.time 1000)], [("dateTime", GVal.time 1500)]⟩

/-- A calendar named Work holding only rawAtNow. -/
def calAtNow : Cal := ⟨"Work", "#111111", [rawAtNow]⟩

/-- The parsed form of rawAtNow. -/
def evAtNow : Event := ⟨"m", "utc", 1000, 1500, "#111111"⟩

/-- A timed event already past at instant 1000. -/
def rawPast : RawEvent := ⟨"old", [("dateTime", GVal.time 400)], [("dateTime", GVal.time 500)]⟩

/-- A timed event in the future of instant 1000. -/
def rawFut : RawEvent := ⟨"standup", [("dateTime", GVal.time 2000)], [("dateTime", GVal.time 3000)]⟩

/-- A calendar named Work holding only rawFut. -/
def calFut : Cal := ⟨"Work", "#111111", [rawFut]⟩

/-- The parsed form of rawFut. -/
def evFut : Event := ⟨"standup", "utc", 2000, 3000, "#111111"⟩

/-- An all-day event: its start carries a "date" key and no time of day. -/
def rawAllDay : RawEvent := ⟨"holiday", [("date", GVal.str "2026-10-12")], []⟩

/-- A calendar mixing an all-day event with a timed one. -/
def calMix : Cal := ⟨"Work", "#111111", [rawAllDay, rawFut]⟩

lemma pymod_nonneg (x : ℚ) {y : ℚ} (hy : 0 < y) : 0 ≤ pymod x y := by
  have h := Int.floor_le (x / y)
  have : y * ⌊x / y⌋ ≤ x := by
    have := mul_le_mul_of_nonneg_left h (le_of_lt hy)
    calc y * (⌊x / y⌋ : ℚ) ≤ y * (x / y) := this
      _ = x := by field_simp
  simpa [pymod] using this

lemma pymod_lt (x : ℚ) {y : ℚ} (hy : 0 < y) : pymod x y < y := by
  have h := Int.lt_floor_add_one (x / y)
  have : x < y * ⌊x / y⌋ + y := by
    have hm := mul_lt_mul_of_pos_left h hy
    calc x = y * (x / y) := by field_simp
      _ < y * ((⌊x / y⌋ : ℚ) + 1) := hm
      _ = y * ⌊x / y⌋ + y := by ring
  simpa [pymod] using by linarith

lemma truncd_of_nonneg {x : ℚ} (h : 0 ≤ x) : truncd x = ⌊x⌋ := by
  simp [truncd, not_lt.mpr h]
lemma parseOne_kept {now : ℤ} {color : String} {r : RawEvent} {e : Event}
    (h : parseOne now color r = some (some e)) :
    hasKey r.start "date" = false ∧ now ≤ e.start := by
  rw [parseOne] at h
  split at h
  · exact absurd h (by simp)
  · rename_i hd
    refine ⟨by simpa using hd, ?_⟩
    split at h
    · exact absurd h (by simp)
    · split at h
      · exact absurd h (by simp)
      · rename_i s hs
        split at h
        · exact absurd h (by simp)
        · rename_i hlt
          split at h
          · exact absurd h (by simp)
          · simp only [Option.some.injEq] at h
            subst h
            exact Int.not_lt.mp hlt

lemma get_events_mem {now : ℤ} {color : String} {rs : List RawEvent} {out : List Event} {e : Event}
    (h : get_events now color rs = some out) (he : e ∈ out) :
    ∃ r ∈ rs, parseOne now color r = some (some e) := by
  induction rs generalizing out with
  | nil =>
    rw [get_events] at h
    simp only [Option.some.injEq] at h
    subst h
    simp at he
  | cons r rs ih =>
    rw [get_events] at h
    split at h
    · exact absurd h (by simp)
    · rename_i h0 hp
      split at h
      · exact absurd h (by simp)
      · rename_i t ht
        simp only [Option.some.injEq] at h
        subst h
        cases h0 with
        | none =>
          obtain ⟨r', hr', hp'⟩ := ih ht he
          exact ⟨r', List.mem_cons_of_mem _ hr', hp'⟩
        | some ev =>
          rcases List.mem_cons.mp he with rfl | hmem
          · exact ⟨r, List.mem_cons_self _ _, hp⟩
          · obtain ⟨r', hr', hp'⟩ := ih ht hmem
            exact ⟨r', List.mem_cons_of_mem _ hr', hp'⟩

lemma gatherEvents_mem {now : ℤ} {cs : List Cal} {out : List Event} {e : Event}
    (h : gatherEvents now cs = some out) (he : e ∈ out) :
    ∃ c ∈ cs, ∃ r ∈ c.events, parseOne now c.backgroundColor r = some (some e) := by
  induction cs generalizing out with
  | nil =>
    rw [gatherEvents] at h
    simp only [Option.some.injEq] at h
    subst h
    simp at he
  | cons c cs ih =>
    rw [gatherEvents] at h
    split at h
    · exact absurd h (by simp)
    · rename_i es hes
      split at h
      · exact absurd h (by simp)
      · rename_i rest hrest
        simp only [Option.some.injEq] at h
        subst h
        rcases List.mem_append.mp he with h1 | h2
        · obtain ⟨r, hr, hp⟩ := get_events_mem hes h1
          exact ⟨c, List.mem_cons_self _ _, r, hr, hp⟩
        · obtain ⟨c', hc', r, hr, hp⟩ := ih hrest h2
          exact ⟨c', List.mem_cons_of_mem _ hc', r, hr, hp⟩

lemma get_next_events_elim {now : ℤ} {names : List String} {cals : List Cal} {out : List Event}
    (h : get_next_events now names cals = some out) :
    ∃ all, gatherEvents now (cals.filter (fun c => names.contains c.summary)) = some all ∧
      out = List.insertionSort startLe all := by
  rw [get_next_events] at h
  split at h
  · exact absurd h (by simp)
  · rename_i all hall
    simp only [Option.some.injEq] at h
    exact ⟨all, hall, h.symm⟩

lemma get_next_events_mem {now : ℤ} {names : List String} {cals : List Cal} {out : List Event}
    {e : Event} (h : get_next_events now names cals = some out) (he : e ∈ out) :
    ∃ c ∈ cals, ∃ r ∈ c.events, parseOne now c.backgroundColor r = some (some e) := by
  obtain ⟨all, hall, rfl⟩ := get_next_events_elim h
  have he' : e ∈ all := (List.mem_insertionSort startLe).mp he
  obtain ⟨c, hc, r, hr, hp⟩ := gatherEvents_mem hall he'
  exact ⟨c, (List.mem_filter.mp hc).1, r, hr, hp⟩

/-- Claim C1 (code bug evaluation): a fetched timed event whose provider
record carries the camel-case timeZone field is nevertheless resolved to the
UTC zone, because line 112 tests the lowercase key 'timezone' while the
provider populates 'timeZone'; the provider-given zone branch is dead and the
claimed fallback-only-when-absent behaviour does not hold. -/
theorem C1_timezone_ignored :
    hasKey rawTzWarsaw.start "timeZone" = true ∧
    parseOne 1000 "#111111" rawTzWarsaw =
      some (some ⟨"standup", "utc", 2000, 3000, "#111111"⟩) := by decide

/-- Claim C2 counterexample: an event whose zone-adjusted start equals "now"
(instant 1000) is NOT discarded — it survives into the get_next_events
output, because line 115 tests start_date < now, not start_date <= now. -/
theorem C2_start_at_now_kept :
    get_next_events 1000 ["Work"] [calAtNow] = some [evAtNow] ∧ evAtNow.start = 1000 := by decide

/-- Claim C2 as amended: a fetched timed event is excluded iff its
zone-adjusted start is strictly before "now"; every event in the
get_next_events output has start at or after now (an event starting exactly
at now is kept), and a timed event with start before now is skipped. -/
theorem C2_start_filter :
    (∀ now names cals out, get_next_events now names cals = some out →
      ∀ e ∈ out, now ≤ e.start) ∧
    (∀ now color r s, hasKey r.start "date" = false → hasKey r.start "timezone" = false →
      dateTimeOf r.start = some s → s < now → parseOne now color r = some none) := by
  constructor
  · intro now names cals out h e he
    obtain ⟨c, _, r, _, hp⟩ := get_next_events_mem h he
    exact (parseOne_kept hp).2
  · intro now color r s hd htz hdt hlt
    have h1 : resolveTz r.start = some "utc" := by rw [resolveTz, if_neg (by simp [htz])]
    rw [parseOne, if_neg (by simp [hd]), h1, hdt]
    simp [hlt]

/-- Witness for C2_start_filter: at now = 1000, the kept event evAtNow
satisfies the bound, and the past event rawPast (start 400) is skipped. -/
theorem C2_start_filter_witness :
    (1000 : ℤ) ≤ evAtNow.start ∧ parseOne 1000 "#111111" rawPast = some none :=
  ⟨C2_start_filter.1 1000 ["Work"] [calAtNow] [evAtNow] (by decide) evAtNow (by decide),
   C2_start_filter.2 1000 "#111111" rawPast 400 (by decide) (by decide) (by decide) (by decide)⟩

/-- Claim C3 counterexample: the Duration built from a 25-hour span (90000
seconds) holds 3600 seconds, not the span's whole-second total, because
timedelta.seconds is the within-one-day component. -/
theorem C3_seconds_cex :
    (Duration.ofTimedelta 90000).seconds = 3600 ∧
    (Duration.ofTimedelta 90000).seconds ≠ ⌊(90000 : ℚ)⌋ := by
  norm_num [Duration.ofTimedelta]

/-- Claim C3 as amended: constructing Duration from a time span t yields the
span's within-one-day seconds component, floor (t) mod 86400; this equals the
whole-second count of the entire span exactly when 0 <= t < 24 hours. -/
theorem C3_seconds_within_day (t : ℚ) :
    (Duration.ofTimedelta t).seconds = ⌊t⌋ % 86400 ∧
    (0 ≤ t → t < 86400 → (Duration.ofTimedelta t).seconds = ⌊t⌋) := by
  refine ⟨rfl, fun h0 h1 => ?_⟩
  show ⌊t⌋ % 86400 = ⌊t⌋
  exact Int.emod_eq_of_lt (Int.floor_nonneg.mpr h0) (Int.floor_lt.mpr (by exact_mod_cast h1))

/-- Witness for C3_seconds_within_day at the span of 3600.5 seconds. -/
theorem C3_seconds_within_day_witness :
    (Duration.ofTimedelta (7201 / 2)).seconds = ⌊(7201 / 2 : ℚ)⌋ :=
  (C3_seconds_within_day (7201 / 2)).2 (by norm_num) (by norm_num)

/-- Claim C4: get_duration_color returns the urgent color iff
minutes_full < 20, the soon color iff 20 <= minutes_full < 120, and no color
iff minutes_full >= 120; in particular 19m59s is urgent, 20m0s and 119m59s
are soon, and 120m0s gets no color. -/
theorem C4_urgency (d : Duration) :
    (get_duration_color d = some "#FF0000" ↔ d.minutes_full < 20) ∧
    (get_duration_color d = some "#FFFF00" ↔ 20 ≤ d.minutes_full ∧ d.minutes_full < 120) ∧
    (get_duration_color d = none ↔ 120 ≤ d.minutes_full) ∧
    get_duration_color (Duration.ofInt 1199) = some "#FF0000" ∧
    get_duration_color (Duration.ofInt 1200) = some "#FFFF00" ∧
    get_duration_color (Duration.ofInt 7199) = some "#FFFF00" ∧
    get_duration_color (Duration.ofInt 7200) = none := by
  refine ⟨?_, ?_, ?_, ?_, ?_, ?_, ?_⟩
  · unfold get_duration_color
    split_ifs with h1 h2
    · exact iff_of_true rfl h1
    · exact iff_of_false (by decide) h1
    · exact iff_of_false (by decide) h1
  · unfold get_duration_color
    split_ifs with h1 h2
    · exact iff_of_false (by decide) (fun hc => absurd h1 (not_lt.mpr hc.1))
    · exact iff_of_true rfl ⟨not_lt.mp h1, h2⟩
    · exact iff_of_false (by decide) (fun hc => absurd hc.2 h2)
  · unfold get_duration_color
    split_ifs with h1 h2
    · exact iff_of_false (by decide) (fun hc => by linarith)
    · exact iff_of_false (by decide) (fun hc => by linarith)
    · exact iff_of_true rfl (not_lt.mp h2)
  all_goals norm_num [get_duration_color, Duration.minutes_full, Duration.ofInt]

/-- Claim C5: Duration rendering produces "Hh Mm" when hours_full >= 1 (both
components truncated to integers, M being the within-hour minutes) and "Mm"
otherwise, never showing seconds; with the listed concrete values. -/
theorem C5_format (d : Duration) :
    (1 ≤ d.hours_full →
      d.str = toString ⌊d.hours_full⌋ ++ "h " ++ (toString ⌊d.minutes⌋ ++ "m")) ∧
    (d.hours_full < 1 → d.str = toString ⌊d.minutes⌋ ++ "m") ∧
    (Duration.ofInt 0).str = "0m" ∧
    (Duration.ofInt 59).str = "0m" ∧
    (Duration.ofInt 60).str = "1m" ∧
    (Duration.ofInt 3599).str = "59m" ∧
    (Duration.ofInt 3600).str = "1h 0m" ∧
    (Duration.ofInt 7530).str = "2h 5m" := by
  have hm : truncd d.minutes = ⌊d.minutes⌋ := truncd_of_nonneg (pymod_nonneg _ (by norm_num))
  refine ⟨fun h1 => ?_, fun h1 => ?_, ?_, ?_, ?_, ?_, ?_, ?_⟩
  · have hh : truncd d.hours_full = ⌊d.hours_full⌋ := truncd_of_nonneg (le_trans zero_le_one h1)
    rw [Duration.str, if_neg (not_lt.mpr h1), hm, hh, String.append_assoc]
  · rw [Duration.str, if_pos h1, hm]
    simp
  all_goals
    norm_num [Duration.str, Duration.hours_full, Duration.minutes_full, Duration.minutes,
      pymod, truncd, Duration.ofInt]
    decide

/-- Witness for C5_format: both conditional branches discharged at concrete
durations (3600 seconds and 59 seconds). -/
theorem C5_format_witness :
    (Duration.ofInt 3600).str =
      toString ⌊(Duration.ofInt 3600).hours_full⌋ ++ "h " ++
        (toString ⌊(Duration.ofInt 3600).minutes⌋ ++ "m") ∧
    (Duration.ofInt 59).str = toString ⌊(Duration.ofInt 59).minutes⌋ ++ "m" :=
  ⟨(C5_format (Duration.ofInt 3600)).1
      (by norm_num [Duration.hours_full, Duration.minutes_full, Duration.ofInt]),
   (C5_format (Duration.ofInt 59)).2.1
      (by norm_num [Duration.hours_full, Duration.minutes_full, Duration.ofInt])⟩

/-- Claim C6: get_next_events returns the concatenated surviving events
sorted non-decreasingly by start time, as a permutation of the survivors, and
stably: for every start value the events with that start appear in their
original fetch order (the filter at each start value is unchanged). -/
theorem C6_sorted_stable (now : ℤ) (names : List String) (cals : List Cal) (out : List Event)
    (h : get_next_events now names cals = some out) :
    ∃ survivors,
      gatherEvents now (cals.filter (fun c => names.contains c.summary)) = some survivors ∧
      out.Perm survivors ∧
      List.Sorted startLe out ∧
      ∀ k : ℤ, out.filter (fun e => e.start == k) = survivors.filter (fun e => e.start == k) := by
  obtain ⟨all, hall, rfl⟩ := get_next_events_elim h
  refine ⟨all, hall, List.perm_insertionSort startLe all, List.sorted_insertionSort startLe all, ?_⟩
  intro k
  have hmemk : ∀ a ∈ all.filter (fun e => e.start == k), a.start = k := by
    intro a ha
    simpa using (List.mem_filter.mp ha).2
  have hpw : (all.filter (fun e => e.start == k)).Pairwise startLe := by
    apply List.pairwise_of_forall_mem_list
    intro a ha b hb
    show a.start ≤ b.start
    rw [hmemk a ha, hmemk b hb]
  have hsub : List.Sublist (all.filter (fun e => e.start == k)) (List.insertionSort startLe all) :=
    List.sublist_insertionSort hpw (List.filter_sublist all)
  have hsub2 : List.Sublist (all.filter (fun e => e.start == k))
      ((List.insertionSort startLe all).filter (fun e => e.start == k)) := by
    have h2 := hsub.filter (fun e => e.start == k)
    rwa [List.filter_filter,
      show (fun e : Event => (e.start == k) && (e.start == k)) = (fun e : Event => e.start == k) from
        funext fun e => Bool.and_self _] at h2
  have hlen : ((List.insertionSort startLe all).filter (fun e => e.start == k)).length =
      (all.filter (fun e => e.start == k)).length :=
    ((List.perm_insertionSort startLe all).filter _).length_eq
  exact (hsub2.eq_of_length hlen.symm).symm

/-- Witness for C6_sorted_stable at a calendar mixing an all-day and a timed
event, whose get_next_events output is the single parsed timed event. -/
theorem C6_sorted_stable_witness :
    ∃ survivors,
      gatherEvents 1000 ([calMix].filter (fun c => (["Work"] : List String).contains c.summary)) =
        some survivors ∧
      List.Perm [evFut] survivors ∧
      List.Sorted startLe [evFut] ∧
      ∀ k : ℤ, ([evFut].filter (fun e => e.start == k)) = survivors.filter (fun e => e.start == k) :=
  C6_sorted_stable 1000 ["Work"] [calMix] [evFut] (by decide)

/-- Claim C7: when get_next_events is non-empty, meetings renders a
two-segment composite from the first event: "In <formatted time_until> "
colored by get_duration_color, then the event title colored with its
calendar color (plus the fixed cached_until hint). -/
theorem C7_render (now : ℤ) (names : List String) (cals : List Cal) (e : Event)
    (rest : List Event) (h : get_next_events now names cals = some (e :: rest)) :
    meetings now names cals =
      some ⟨now + 60, none,
        some [("In " ++ (e.time_until now).str ++ " ", get_duration_color (e.time_until now)),
              (e.summary, some e.color)]⟩ := by
  simp only [meetings, h]

/-- Witness for C7_render at the singleton calendar calFut. -/
theorem C7_render_witness :
    meetings 1000 ["Work"] [calFut] =
      some ⟨1060, none,
        some [("In " ++ (evFut.time_until 1000).str ++ " ",
                get_duration_color (evFut.time_until 1000)),
              (evFut.summary, some evFut.color)]⟩ :=
  C7_render 1000 ["Work"] [calFut] evFut [] (by decide)

/-- Claim C8: when get_next_events is empty, meetings renders the plain text
"No upcoming events"; an empty tracked-name set, or tracked names matching no
provider calendar, always yields the empty event sequence. -/
theorem C8_no_events :
    (∀ now names cals, get_next_events now names cals = some [] →
      meetings now names cals = some ⟨now + 60, some "No upcoming events", none⟩) ∧
    (∀ (now : ℤ) (cals : List Cal), get_next_events now [] cals = some []) ∧
    (∀ now names cals, (∀ c ∈ cals, names.contains c.summary = false) →
      get_next_events now names cals = some []) := by
  refine ⟨fun now names cals h => by simp only [meetings, h], ?_, ?_⟩
  · intro now cals
    have hf : cals.filter (fun c => List.contains ([] : List String) c.summary) = [] := by
      simp
    rw [get_next_events, hf]
    rfl
  · intro now names cals hnone
    have hf : cals.filter (fun c => names.contains c.summary) = [] := by
      apply List.filter_eq_nil_iff.mpr
      intro c hc
      simpa using hnone c hc
    rw [get_next_events, hf]
    rfl

/-- Witness for C8_no_events: no calendars at all, an empty tracked-name set,
and a tracked name matching no calendar. -/
theorem C8_no_events_witness :
    meetings 500 ["Work"] [] = some ⟨560, some "No upcoming events", none⟩ ∧
    get_next_events 500 [] [calFut] = some [] ∧
    get_next_events 500 ["Gym"] [calFut] = some [] :=
  ⟨C8_no_events.1 500 ["Work"] [] (by decide),
   C8_no_events.2.1 500 [calFut],
   C8_no_events.2.2 500 ["Gym"] [calFut] (by decide)⟩

/-- Claim C9: every event in the get_next_events output stems from a raw
provider event whose start carries no date-only key — no all-day event ever
appears in the output. -/
theorem C9_no_allday (now : ℤ) (names : List String) (cals : List Cal) (out : List Event)
    (h : get_next_events now names cals = some out) :
    ∀ e ∈ out, ∃ c ∈ cals, ∃ r ∈ c.events,
      hasKey r.start "date" = false ∧ parseOne now c.backgroundColor r = some (some e) := by
  intro e he
  obtain ⟨c, hc, r, hr, hp⟩ := get_next_events_mem h he
  exact ⟨c, hc, r, hr, (parseOne_kept hp).1, hp⟩

/-- Witness for C9_no_allday at calMix, which mixes an all-day and a timed
event; the surviving output event traces back to the timed raw event. -/
theorem C9_no_allday_witness :
    ∃ c ∈ [calMix], ∃ r ∈ c.events,
      hasKey r.start "date" = false ∧ parseOne 1000 c.backgroundColor r = some (some evFut) :=
  C9_no_allday 1000 ["Work"] [calMix] [evFut] (by decide) evFut (by decide)

/-- Claim C10: a Duration built from any time span has its seconds in
[0, 86400); Event.time_until is therefore never negative even when now is
past the start, and a negative span wraps to its within-one-day remainder
(for example a span of -60 seconds yields 86340). -/
theorem C10_nonneg :
    (∀ t : ℚ, 0 ≤ (Duration.ofTimedelta t).seconds ∧ (Duration.ofTimedelta t).seconds < 86400) ∧
    (∀ (e : Event) (now : ℤ), 0 ≤ (e.time_until now).seconds) ∧
    (Duration.ofTimedelta (-60)).seconds = 86340 := by
  refine ⟨fun t => ⟨Int.emod_nonneg _ (by norm_num), Int.emod_lt_of_pos _ (by norm_num)⟩,
    fun e now => Int.emod_nonneg _ (by norm_num), by norm_num [Duration.ofTimedelta]⟩
